import Mathlib

/-!
Verification of the air-quality ETL pipeline in `src/Streamlite/main.py`.

The pipeline works on pandas dataframes.  We embed a dataframe as a list of
column names together with a list of rows, each row a list of cells.  A cell
is either an absent value (pandas `NaN`/`NaT`/Python `None`), a string, a
number (Python ints and floats are both embedded as rationals), or a calendar
date (embedded as days since 1970-01-01, the epoch used by pandas).

Library calls (`pd.to_numeric`, `pd.to_datetime`, `pd.read_csv`,
`str.strip/lower/upper/replace`) are modelled by executable Lean functions
over this cell type; each model's doc comment states the subset of the
library behaviour it covers.  The repository's own functions
(`country_name`, `eaqi_label`, `eaqi_color`, `normalize_columns`,
`fix_single_column_csv_like`, `prepare`, `city_means_for_day`) are translated
statement by statement from the source.
-/

namespace AirQuality

/-- The ASCII whitespace characters recognised by Python's `str.strip()`. -/
def pyWs (c : Char) : Bool :=
  c.toNat = 32 || c.toNat = 9 || c.toNat = 10 || c.toNat = 13 ||
    c.toNat = 11 || c.toNat = 12

/-- Model of Python `str.strip()`: remove leading and trailing whitespace. -/
def pyStrip (l : List Char) : List Char :=
  ((l.dropWhile pyWs).reverse.dropWhile pyWs).reverse

/-- Model of Python `str.lower()` on one character (ASCII range). -/
def pyLowerChar (c : Char) : Char :=
  if 65 ≤ c.toNat ∧ c.toNat ≤ 90 then Char.ofNat (c.toNat + 32) else c

/-- Model of Python `str.upper()` on one character (ASCII range). -/
def pyUpperChar (c : Char) : Char :=
  if 97 ≤ c.toNat ∧ c.toNat ≤ 122 then Char.ofNat (c.toNat - 32) else c

/-- Model of Python `str.lower()` (ASCII range). -/
def pyLower (l : List Char) : List Char := l.map pyLowerChar

/-- Model of Python `str.upper()` (ASCII range). -/
def pyUpper (l : List Char) : List Char := l.map pyUpperChar

/-- One character of Python `str.replace(" ", "_")`. -/
def underscoreChar (c : Char) : Char :=
  if c = ' ' then '_' else c

/-- Model of Python `str.replace(" ", "_")` (the pattern is a single
character, so the substring replacement is a character map). -/
def pyReplaceSpaceUnderscore (l : List Char) : List Char :=
  l.map underscoreChar

/-- The column-name canonicalisation of `normalize_columns`:
`str(c).strip().lower().replace(" ", "_")`. -/
def normName (s : String) : String :=
  ⟨pyReplaceSpaceUnderscore (pyLower (pyStrip s.data))⟩

/-- `code.strip().upper()` as used by `country_name`. -/
def pyStripUpper (s : String) : String :=
  ⟨pyUpper (pyStrip s.data)⟩

/-- A dataframe cell: pandas `NaN`/`NaT`/`None`, a string, a number
(ints and floats are both rationals here), or a date (days since epoch). -/
inductive Cell where
  | absent : Cell
  | str : String → Cell
  | num : ℚ → Cell
  | date : Int → Cell
  deriving DecidableEq

/-- Model of `pd.isna` on a cell. -/
def cellIsNA : Cell → Bool
  | Cell.absent => true
  | _ => false

/-- The numeric content of a cell, if any. -/
def cellNum : Cell → Option ℚ
  | Cell.num q => some q
  | _ => none

/-- Accumulator-style decimal-digit parser: `none` on a non-digit. -/
def digitsToNatAux : List Char → Nat → Option Nat
  | [], acc => some acc
  | c :: cs, acc =>
    if c.isDigit then digitsToNatAux cs (acc * 10 + (c.toNat - 48)) else none

/-- Parse a (possibly empty) run of decimal digits; `none` on a non-digit.
The empty list parses to `0`; callers rule the empty case out themselves. -/
def digitsToNat (l : List Char) : Option Nat := digitsToNatAux l 0

/-- Split a character list at every occurrence of `sep` (no quoting). -/
def splitOnChar (sep : Char) : List Char → List (List Char)
  | [] => [[]]
  | c :: cs =>
    if c = sep then [] :: splitOnChar sep cs
    else
      match splitOnChar sep cs with
      | [] => [[c]]
      | f :: rest => (c :: f) :: rest

/-- Parse an unsigned decimal numeral `digits[.digits]` into a pair
(mantissa, power-of-ten scale), so that the value is mantissa / scale;
at least one digit must be present. -/
def parseDecParts (l : List Char) : Option (Nat × Nat) :=
  match splitOnChar '.' l with
  | [ip] =>
    if ip = [] then none else (digitsToNat ip).map fun n => (n, 1)
  | [ip, fp] =>
    if ip = [] ∧ fp = [] then none
    else
      match digitsToNat ip, digitsToNat fp with
      | some i, some f => some (i * 10 ^ fp.length + f, 10 ^ fp.length)
      | _, _ => none
  | _ => none

/-- Model of the numeric-string parsing done by `pd.to_numeric`: optional
sign, plain decimal notation, surrounding whitespace allowed.  (Scientific
notation and special spellings such as `inf` are outside the fragment the
pipeline's verified properties exercise.)  The rational is assembled with
`mkRat` so that the definition evaluates by kernel reduction. -/
def parsePyFloat (s : String) : Option ℚ :=
  match pyStrip s.data with
  | '+' :: rest => (parseDecParts rest).map fun p => mkRat (p.1 : Int) p.2
  | '-' :: rest => (parseDecParts rest).map fun p => mkRat (-(p.1 : Int)) p.2
  | rest => (parseDecParts rest).map fun p => mkRat (p.1 : Int) p.2

/-- Model of `pd.to_numeric(col, errors="coerce")` on one cell: numbers pass
through, parseable numeric strings are converted, everything else (dates,
non-numeric strings, absent) coerces to absent. -/
def toNumeric : Cell → Cell
  | Cell.num q => Cell.num q
  | Cell.str s =>
    match parsePyFloat s with
    | some q => Cell.num q
    | none => Cell.absent
  | _ => Cell.absent

/-- Leap-year rule of the proleptic Gregorian calendar. -/
def isLeap (y : Int) : Bool :=
  y % 4 = 0 && (y % 100 ≠ 0 || y % 400 = 0)

/-- Number of days in month `m` (1-based) of year `y`. -/
def daysInMonth (y : Int) (m : Nat) : Nat :=
  if m = 2 then (if isLeap y then 29 else 28)
  else if m = 4 ∨ m = 6 ∨ m = 9 ∨ m = 11 then 30
  else 31

/-- Days since 1970-01-01 of the civil date `y-m-d`
(standard era-based conversion for the proleptic Gregorian calendar). -/
def daysFromCivil (y : Int) (m : Nat) (d : Nat) : Int :=
  let y2 : Int := if m ≤ 2 then y - 1 else y
  let era : Int := (if 0 ≤ y2 then y2 else y2 - 399) / 400
  let yoe : Int := y2 - era * 400
  let mp : Int := ((m : Int) + 9) % 12
  let doy : Int := (153 * mp + 2) / 5 + (d : Int) - 1
  let doe : Int := yoe * 365 + yoe / 4 - yoe / 100 + doy
  era * 146097 + doe - 719468

/-- Parse an ISO `YYYY-MM-DD` date string to days since the epoch,
validating the month and the day of month. -/
def parseDateISO (s : String) : Option Int :=
  match splitOnChar '-' (pyStrip s.data) with
  | [ys, ms, ds] =>
    if ys.length = 4 ∧ ms.length = 2 ∧ ds.length = 2 then
      match digitsToNat ys, digitsToNat ms, digitsToNat ds with
      | some y, some m, some d =>
        if 1 ≤ m ∧ m ≤ 12 ∧ 1 ≤ d ∧ d ≤ daysInMonth (y : Int) m then
          some (daysFromCivil (y : Int) m d)
        else none
      | _, _, _ => none
    else none
  | _ => none

/-- Nanoseconds per day (`pd.to_datetime` reads bare numbers as
nanoseconds since the epoch). -/
def nanosPerDay : Nat := 86400000000000

/-- Model of `pd.to_datetime(col, errors="coerce").dt.date` on one cell:
dates pass through, ISO date strings are parsed (the format the dataset
uses), numbers are nanoseconds since the epoch truncated to a day
(`mkRat q.num (q.den * nanosPerDay)` is `q / nanosPerDay`), and anything
unparseable coerces to absent. -/
def toDatetimeDate : Cell → Cell
  | Cell.date d => Cell.date d
  | Cell.str s =>
    match parseDateISO s with
    | some d => Cell.date d
    | none => Cell.absent
  | Cell.num q => Cell.date ((mkRat q.num (q.den * nanosPerDay)).floor)
  | Cell.absent => Cell.absent

/-- `GOOD_MAX` from the source configuration. -/
def GOOD_MAX : ℚ := 40

/-- `MEDIUM_MAX` from the source configuration. -/
def MEDIUM_MAX : ℚ := 80

/-- `COLOR_GOOD` from the source configuration. -/
def COLOR_GOOD : String := "#0078FF"

/-- `COLOR_MED` from the source configuration. -/
def COLOR_MED : String := "#FFA500"

/-- `COLOR_BAD` from the source configuration. -/
def COLOR_BAD : String := "#DC143C"

/-- `COLOR_UNKNOWN` from the source configuration. -/
def COLOR_UNKNOWN : String := "#A0A0A0"

/-- `eaqi_label` from the source: the argument is a possibly absent number
(`none` models a value for which `pd.isna` is true). -/
def eaqi_label : Option ℚ → String
  | none => "Inconnu"
  | some v =>
    if v ≤ GOOD_MAX then "Bon"
    else if v ≤ MEDIUM_MAX then "Moyen"
    else "Mauvais"

/-- `eaqi_color` from the source. -/
def eaqi_color : Option ℚ → String
  | none => COLOR_UNKNOWN
  | some v =>
    if v ≤ GOOD_MAX then COLOR_GOOD
    else if v ≤ MEDIUM_MAX then COLOR_MED
    else COLOR_BAD

/-- `ISO2_TO_COUNTRY_FR` from the source. -/
def ISO2_TO_COUNTRY_FR : List (String × String) :=
  [("AL", "Albanie"), ("AT", "Autriche"), ("BA", "Bosnie-Herzégovine"),
   ("BE", "Belgique"), ("BG", "Bulgarie"), ("CH", "Suisse"),
   ("CZ", "Tchéquie"), ("DE", "Allemagne"), ("DK", "Danemark"),
   ("EE", "Estonie"), ("ES", "Espagne"), ("FI", "Finlande"),
   ("FR", "France"), ("GB", "Royaume-Uni"), ("GR", "Grèce"),
   ("HR", "Croatie"), ("HU", "Hongrie"), ("IE", "Irlande"),
   ("IS", "Islande"), ("IT", "Italie"), ("LT", "Lituanie"),
   ("LU", "Luxembourg"), ("LV", "Lettonie"), ("MD", "Moldavie"),
   ("ME", "Monténégro"), ("MK", "Macédoine du Nord"), ("MT", "Malte"),
   ("NL", "Pays-Bas"), ("NO", "Norvège"), ("PL", "Pologne"),
   ("PT", "Portugal"), ("RO", "Roumanie"), ("RS", "Serbie"),
   ("SE", "Suède"), ("SI", "Slovénie"), ("SK", "Slovaquie"),
   ("UA", "Ukraine")]

/-- `country_name` from the source.  The argument is a raw cell because the
source first checks `isinstance(code, str)` and maps every non-string
(absent values included) to the fixed sentinel `"Inconnu"`. -/
def country_name : Cell → String
  | Cell.str code =>
    let c := pyStripUpper code
    match ISO2_TO_COUNTRY_FR.lookup c with
    | some n => n
    | none => c
  | _ => "Inconnu"

/-- A pandas dataframe: named columns and rows of cells. -/
structure DataFrame where
  cols : List String
  rows : List (List Cell)
  deriving DecidableEq

/-- Index of the first column called `name` (`cols.length` when absent). -/
def colIdx (cols : List String) (name : String) : Nat :=
  cols.findIdx fun c => decide (c = name)

/-- Cell of row `r` in the column called `name` (absent when out of range,
as after a `groupby`/`dropna` on a frame lacking the column). -/
def getAt (cols : List String) (name : String) (r : List Cell) : Cell :=
  r.getD (colIdx cols name) Cell.absent

/-- `normalize_columns` from the source: canonicalises every column name
with `str(c).strip().lower().replace(" ", "_")`. -/
def normalize_columns (df : DataFrame) : DataFrame :=
  { df with cols := df.cols.map normName }

/-- The value of the caller's dataframe object after `normalize_columns`
returns.  The source assigns `df.columns` on the received object and
returns that same object, so the post-call state equals the return
value. -/
def normalize_columns_post (df : DataFrame) : DataFrame :=
  normalize_columns df

/-- Year, month, day of a days-since-epoch count (standard era-based
conversion, inverse of `daysFromCivil`). -/
def civilFromDays (z0 : Int) : Int × Nat × Nat :=
  let z := z0 + 719468
  let era : Int := (if 0 ≤ z then z else z - 146096) / 146097
  let doe : Int := z - era * 146097
  let yoe : Int := (doe - doe / 1460 + doe / 36524 - doe / 146096) / 365
  let y : Int := yoe + era * 400
  let doy : Int := doe - (365 * yoe + yoe / 4 - yoe / 100)
  let mp : Int := (5 * doy + 2) / 153
  let d : Int := doy - (153 * mp + 2) / 5 + 1
  let m : Int := if mp < 10 then mp + 3 else mp - 9
  ((if m ≤ 2 then y + 1 else y), m.toNat, d.toNat)

/-- Left-pad a numeral with zeros to `k` characters. -/
def padZeros (s : String) (k : Nat) : String :=
  ⟨List.replicate (k - s.data.length) '0' ++ s.data⟩

/-- ISO rendering of a days-since-epoch date, as `str(datetime.date)`. -/
def dateToISO (z : Int) : String :=
  match civilFromDays z with
  | (y, m, d) =>
    padZeros (toString y) 4 ++ "-" ++ padZeros (toString m) 2 ++ "-" ++
      padZeros (toString d) 2

/-- String form of a cell (`astype(str)`), as used by
`fix_single_column_csv_like` before re-parsing.  String cells, integral
numbers, dates and absent cells (`"nan"`) are rendered as Python renders
them; a non-integral rational falls back to `num/den` form (the verified
properties only exercise string cells). -/
def cellToStr : Cell → String
  | Cell.str s => s
  | Cell.num q =>
    if q.den = 1 then toString q.num
    else toString q.num ++ "/" ++ toString q.den
  | Cell.date z => dateToISO z
  | Cell.absent => "nan"

/-- Model of `pd.read_csv` on an in-memory document, restricted to the
unquoted fragment the pipeline feeds it: the first line is split on commas
into column names; every further line is split on commas into fields, short
rows padded with empty fields; a column whose every field is empty or
parses as a number becomes a numeric column (empty fields become absent),
every other column keeps its fields as strings (empty fields still become
absent).  Quoting, escaped separators, duplicate-header mangling and
non-numeric type promotion are outside the modelled fragment. -/
def parseCSV (header : List Char) (cellLines : List (List Char)) : DataFrame :=
  let hdrs := splitOnChar ',' header
  let n := hdrs.length
  let rawRows := cellLines.map fun l =>
    let fs := splitOnChar ',' l
    fs.take n ++ List.replicate (n - fs.length) []
  let colIsNum : Nat → Bool := fun j =>
    rawRows.all fun fs =>
      let f := fs.getD j []
      f.isEmpty || (parsePyFloat ⟨f⟩).isSome
  { cols := hdrs.map fun h => ⟨h⟩,
    rows := rawRows.map fun fs =>
      (List.range n).map fun j =>
        let f := fs.getD j []
        if f.isEmpty then Cell.absent
        else if colIsNum j then
          match parsePyFloat ⟨f⟩ with
          | some q => Cell.num q
          | none => Cell.str ⟨f⟩
        else Cell.str ⟨f⟩ }

/-- `fix_single_column_csv_like` from the source: when the frame has
exactly one column whose name contains a comma, synthesise the document
whose first line is that name and whose further lines are the string forms
of the column's cells, and re-parse it as a delimited table; otherwise
return the frame unchanged. -/
def fix_single_column_csv_like (df : DataFrame) : DataFrame :=
  if df.cols.length ≠ 1 then df
  else
    let header := df.cols.getD 0 ""
    if ¬ header.data.contains ',' then df
    else
      parseCSV header.data
        (df.rows.map fun r => (cellToStr (r.getD 0 Cell.absent)).data)

/-- The normalisation stage of `load_excel_local` after the file read:
`fix_single_column_csv_like` followed by `normalize_columns`. -/
def normalizeTable (df : DataFrame) : DataFrame :=
  normalize_columns (fix_single_column_csv_like df)

/-- The required column set of `prepare`. -/
def requiredCols : List String :=
  ["city", "country", "date", "latitude", "longitude", "european_aqi"]

/-- `needed - set(df.columns)` from `prepare` (unsorted). -/
def missingCols (df : DataFrame) : List String :=
  requiredCols.filter fun c => decide (c ∉ df.cols)

/-- The schema error raised by `prepare`: the sorted missing required
names together with the columns actually present. -/
structure SchemaError where
  missing : List String
  present : List String
  deriving DecidableEq

instance {ε α : Type} [DecidableEq ε] [DecidableEq α] :
    DecidableEq (Except ε α) := fun a b =>
  match a, b with
  | Except.ok x, Except.ok y =>
    if h : x = y then Decidable.isTrue (congrArg _ h)
    else Decidable.isFalse fun hh => h (Except.ok.inj hh)
  | Except.error x, Except.error y =>
    if h : x = y then Decidable.isTrue (congrArg _ h)
    else Decidable.isFalse fun hh => h (Except.error.inj hh)
  | Except.ok _, Except.error _ => Decidable.isFalse Except.noConfusion
  | Except.error _, Except.ok _ => Decidable.isFalse Except.noConfusion

/-- The per-column type coercions of `prepare` on one field: `date` gets
`pd.to_datetime(..., errors="coerce").dt.date`, the three numeric columns
get `pd.to_numeric(..., errors="coerce")`, all other columns are
untouched. -/
def coerceField (name : String) (c : Cell) : Cell :=
  if name = "date" then toDatetimeDate c
  else if name = "latitude" ∨ name = "longitude" ∨ name = "european_aqi" then
    toNumeric c
  else c

/-- The four column-coercion assignments of `prepare` applied to one row
(positionally; the four target column names are distinct, so the
sequential per-column assignments act independently). -/
def coerceRow (cols : List String) (r : List Cell) : List Cell :=
  List.zipWith coerceField cols r

/-- The derived `country_name` cell of a row. -/
def countryNameCell (cols : List String) (r : List Cell) : Cell :=
  Cell.str (country_name (getAt cols "country" r))

/-- The `df["country_name"] = df["country"].apply(country_name)`
assignment: replaces the column when it already exists, otherwise appends
it. -/
def addCountryName (df : DataFrame) : DataFrame :=
  if df.cols.contains "country_name" then
    { df with
      rows := df.rows.map fun r =>
        r.set (colIdx df.cols "country_name") (countryNameCell df.cols r) }
  else
    { cols := df.cols ++ ["country_name"],
      rows := df.rows.map fun r => r ++ [countryNameCell df.cols r] }

/-- The caller-visible state of `prepare`'s argument after the in-place
column assignments (type coercions plus derived `country_name`), before
the row drop. -/
def prepareCoerced (df : DataFrame) : DataFrame :=
  addCountryName { df with rows := df.rows.map (coerceRow df.cols) }

/-- The `dropna(subset=["date", "latitude", "longitude", "european_aqi",
"city", "country"])` row criterion of `prepare`. -/
def dropnaKeep (cols : List String) (r : List Cell) : Bool :=
  ["date", "latitude", "longitude", "european_aqi", "city", "country"].all
    fun c => !cellIsNA (getAt cols c r)

/-- The `dropna` row drop of `prepare`. -/
def dropIncomplete (df : DataFrame) : DataFrame :=
  { df with rows := df.rows.filter (dropnaKeep df.cols) }

/-- `prepare` from the source: schema check, per-column type coercion,
derived country name, and the incomplete-row drop. -/
def prepare (df : DataFrame) : Except SchemaError DataFrame :=
  if missingCols df = [] then
    Except.ok (dropIncomplete (prepareCoerced df))
  else
    Except.error ⟨List.insertionSort (· ≤ ·) (missingCols df), df.cols⟩

/-- The caller-visible state of `prepare`'s argument after the call: the
in-place column assignments happened only when the schema check passed
(the raise precedes every assignment), and the final
`df = df.dropna(...)` only rebinds the local name to a fresh frame, which
the caller does not see. -/
def prepare_post (df : DataFrame) : DataFrame :=
  if missingCols df = [] then prepareCoerced df else df

/-- Survival criterion of a raw row through `prepare`, phrased on the
original cells: the date and the three numbers parse, and city and country
are present. -/
def rowParses (cols : List String) (r : List Cell) : Bool :=
  !cellIsNA (toDatetimeDate (getAt cols "date" r))
    && !cellIsNA (toNumeric (getAt cols "latitude" r))
    && !cellIsNA (toNumeric (getAt cols "longitude" r))
    && !cellIsNA (toNumeric (getAt cols "european_aqi" r))
    && !cellIsNA (getAt cols "city" r)
    && !cellIsNA (getAt cols "country" r)

/-- The grouping key of `city_means_for_day`. -/
def groupKeyCols : List String :=
  ["city", "country", "country_name", "latitude", "longitude"]

/-- The five key cells of a row. -/
def keyOf (cols : List String) (r : List Cell) : List Cell :=
  groupKeyCols.map fun c => getAt cols c r

/-- pandas `groupby` keeps only rows whose key cells are all present. -/
def keyOk (k : List Cell) : Bool := k.all fun c => !cellIsNA c

/-- Rational addition assembled with `mkRat` so that it evaluates by
kernel reduction (`ratAdd a b = a + b`, proved below). -/
def ratAdd (a b : ℚ) : ℚ :=
  mkRat (a.num * (b.den : Int) + b.num * (a.den : Int)) (a.den * b.den)

/-- Sum of a list of rationals via `ratAdd`. -/
def ratSum : List ℚ → ℚ
  | [] => 0
  | q :: qs => ratAdd q (ratSum qs)

/-- Arithmetic mean of a list of rationals (`ratMean l = l.sum / l.length`
for nonempty `l`, proved below). -/
def ratMean (l : List ℚ) : ℚ :=
  mkRat (ratSum l).num ((ratSum l).den * l.length)

/-- The `mean` aggregation of one group's `european_aqi` cells: pandas
skips absent values and yields absent on an all-absent group. -/
def meanCell (vals : List Cell) : Cell :=
  let qs := vals.filterMap cellNum
  if qs.isEmpty then Cell.absent else Cell.num (ratMean qs)

/-- One aggregated output row of `city_means_for_day`: the group key
followed by the group's mean `european_aqi` and the label and colour
obtained by applying the classification functions to that mean. -/
def groupRow (cols : List String) (rows : List (List Cell))
    (k : List Cell) : List Cell :=
  let m := meanCell ((rows.filter fun r => decide (keyOf cols r = k)).map
    fun r => getAt cols "european_aqi" r)
  k ++ [m, Cell.str (eaqi_label (cellNum m)), Cell.str (eaqi_color (cellNum m))]

/-- `city_means_for_day` from the source: group rows by the five-part key
(pandas `groupby` drops rows with an absent key cell), aggregate the mean
of `european_aqi` per group, then apply `eaqi_label` and `eaqi_color` to
the mean column. -/
def city_means_for_day (df : DataFrame) : DataFrame :=
  { cols := groupKeyCols ++ ["european_aqi", "label", "color"],
    rows :=
      (((df.rows.filter fun r => keyOk (keyOf df.cols r)).map
        (keyOf df.cols)).dedup).map
        (groupRow df.cols (df.rows.filter fun r => keyOk (keyOf df.cols r))) }

/-- Rectangularity: every row has one cell per column (true of every real
pandas frame). -/
def isRect (df : DataFrame) : Prop :=
  ∀ r ∈ df.rows, r.length = df.cols.length

instance (df : DataFrame) : Decidable (isRect df) :=
  show Decidable (∀ r ∈ df.rows, r.length = df.cols.length) from inferInstance

/-- A clean table in the sense of `prepare`'s output: every row has
present key cells and a numeric `european_aqi`. -/
def isCleanTable (df : DataFrame) : Bool :=
  df.rows.all fun r =>
    keyOk (keyOf df.cols r) && (cellNum (getAt df.cols "european_aqi" r)).isSome

/-- The column list of `prepare`'s result: unchanged when `country_name`
already exists, otherwise extended by it (follows `addCountryName`). -/
def pcCols (cols : List String) : List String :=
  if cols.contains "country_name" then cols else cols ++ ["country_name"]

/-- The row transformation of `prepare` before the drop: the four column
coercions followed by the `country_name` assignment (set or append),
exactly as `prepareCoerced` acts on one row. -/
def prepRow (cols : List String) (r : List Cell) : List Cell :=
  let cr := coerceRow cols r
  if cols.contains "country_name" then
    cr.set (colIdx cols "country_name") (countryNameCell cols cr)
  else cr ++ [countryNameCell cols cr]

/-! ### Concrete example frames used by witnesses and counterexamples -/

/-- The mis-parsed single-column frame of the comma-fallback round trip. -/
def parisDf : DataFrame :=
  { cols := ["city,country,date,latitude,longitude,european_aqi"],
    rows := [[Cell.str "Paris,FR,2024-01-01,48.85,2.35,42"]] }

/-- A frame whose sole column name is canonical yet contains a comma. -/
def commaColDf : DataFrame :=
  { cols := ["a,b"], rows := [] }

/-- A frame with one uppercase column name. -/
def rawCityDf : DataFrame :=
  { cols := ["City"], rows := [] }

/-- A frame with all six required columns lacking only `latitude`. -/
def missingLatDf : DataFrame :=
  { cols := ["city", "country", "date", "longitude", "european_aqi"],
    rows := [] }

/-- A well-formed input frame: one fully parseable row, one row with a
non-numeric latitude, one fully parseable row whose country code is not in
the ISO2 table. -/
def sampleSixDf : DataFrame :=
  { cols := ["city", "country", "date", "latitude", "longitude", "european_aqi"],
    rows :=
      [[Cell.str "Paris", Cell.str "FR", Cell.str "2024-01-01",
        Cell.num 1, Cell.num 2, Cell.num 42],
       [Cell.str "Lille", Cell.str "FR", Cell.str "2024-01-01",
        Cell.str "N/A", Cell.num 2, Cell.num 10],
       [Cell.str "Xyz", Cell.str "zz", Cell.str "2024-01-01",
        Cell.num 5, Cell.num 6, Cell.num 99]] }

/-- A clean two-row frame: the same Lyon key with AQI values 30 and 50. -/
def lyonDf : DataFrame :=
  { cols := ["city", "country", "date", "latitude", "longitude",
      "european_aqi", "country_name"],
    rows :=
      [[Cell.str "Lyon", Cell.str "FR", Cell.date 19723,
        Cell.num (mkRat 4576 100), Cell.num (mkRat 484 100), Cell.num 30,
        Cell.str "France"],
       [Cell.str "Lyon", Cell.str "FR", Cell.date 19723,
        Cell.num (mkRat 4576 100), Cell.num (mkRat 484 100), Cell.num 50,
        Cell.str "France"]] }

/-- The clean frame `prepare` produces from `sampleSixDf`: the `N/A`
latitude row is dropped, dates are parsed, and `country_name` is derived
(`zz` passes through uppercased). -/
def prepOutDf : DataFrame :=
  { cols := ["city", "country", "date", "latitude", "longitude",
      "european_aqi", "country_name"],
    rows :=
      [[Cell.str "Paris", Cell.str "FR", Cell.date 19723,
        Cell.num 1, Cell.num 2, Cell.num 42, Cell.str "France"],
       [Cell.str "Xyz", Cell.str "zz", Cell.date 19723,
        Cell.num 5, Cell.num 6, Cell.num 99, Cell.str "ZZ"]] }

/-- The aggregated frame of `lyonDf`: one row, mean 40, Good tier. -/
def lyonOutDf : DataFrame :=
  { cols := ["city", "country", "country_name", "latitude", "longitude",
      "european_aqi", "label", "color"],
    rows :=
      [[Cell.str "Lyon", Cell.str "FR", Cell.str "France",
        Cell.num (mkRat 4576 100), Cell.num (mkRat 484 100), Cell.num 40,
        Cell.str "Bon", Cell.str "#0078FF"]] }

/-- A column name that is already canonical in the sense of the spec:
trimmed (stripping is the identity), no ASCII uppercase letter, and no
space. -/
def canonName (s : String) : Bool :=
  decide (pyStrip s.data = s.data) &&
    s.data.all fun c => !(65 ≤ c.toNat && c.toNat ≤ 90) && !(c.toNat = 32)

/-- All column names of a frame are canonical. -/
def canonCols (df : DataFrame) : Bool := df.cols.all canonName

/-! ### Helper lemmas -/

theorem uint32_toNat_inj {a b : UInt32} (h : a.toNat = b.toNat) : a = b := by
  cases a
  cases b
  congr 1
  exact BitVec.eq_of_toNat_eq h

theorem char_toNat_inj {a b : Char} (h : a.toNat = b.toNat) : a = b :=
  Char.ext (uint32_toNat_inj h)

theorem char_toNat_ofNat {n : Nat} (h : n < 55296) : (Char.ofNat n).toNat = n := by
  simp [Char.ofNat, Nat.isValidChar, h, Char.toNat, Char.ofNatAux,
    UInt32.toNat, UInt32.ofNat']

theorem pyLowerChar_eq_self {c : Char} (h : ¬(65 ≤ c.toNat ∧ c.toNat ≤ 90)) :
    pyLowerChar c = c := by
  rw [pyLowerChar, if_neg h]

theorem pyLowerChar_toNat_of_upper {c : Char}
    (h : 65 ≤ c.toNat ∧ c.toNat ≤ 90) :
    (pyLowerChar c).toNat = c.toNat + 32 := by
  rw [pyLowerChar, if_pos h]
  exact char_toNat_ofNat (by omega)

theorem pyLowerChar_idem (c : Char) :
    pyLowerChar (pyLowerChar c) = pyLowerChar c := by
  by_cases h : 65 ≤ c.toNat ∧ c.toNat ≤ 90
  · have ht := pyLowerChar_toNat_of_upper h
    apply pyLowerChar_eq_self
    rw [ht]
    omega
  · rw [pyLowerChar_eq_self h, pyLowerChar_eq_self h]

theorem pyLowerChar_ne_of_toNat {c : Char} {d : Char}
    (hd : ¬(65 ≤ d.toNat ∧ d.toNat ≤ 90) ∧ ¬(97 ≤ d.toNat ∧ d.toNat ≤ 122))
    (h : c ≠ d) : pyLowerChar c ≠ d := by
  by_cases hu : 65 ≤ c.toNat ∧ c.toNat ≤ 90
  · intro he
    have := pyLowerChar_toNat_of_upper hu
    rw [he] at this
    exact hd.2 (by omega)
  · rw [pyLowerChar_eq_self hu]
    exact h

theorem pyWs_toNat {c : Char} :
    pyWs c = true ↔
      c.toNat = 32 ∨ c.toNat = 9 ∨ c.toNat = 10 ∨ c.toNat = 13 ∨
        c.toNat = 11 ∨ c.toNat = 12 := by
  simp [pyWs]
  tauto

theorem pyWs_pyLowerChar {c : Char} (h : pyWs c = false) :
    pyWs (pyLowerChar c) = false := by
  by_cases hu : 65 ≤ c.toNat ∧ c.toNat ≤ 90
  · have ht := pyLowerChar_toNat_of_upper hu
    rw [← Bool.not_eq_true]
    rw [pyWs_toNat, ht]
    omega
  · rw [pyLowerChar_eq_self hu]
    exact h

theorem underscoreChar_eq_self {c : Char} (h : c ≠ ' ') :
    underscoreChar c = c := by
  rw [underscoreChar, if_neg h]

theorem underscoreChar_ne_space (c : Char) : underscoreChar c ≠ ' ' := by
  by_cases h : c = ' '
  · rw [underscoreChar, if_pos h]
    decide
  · rw [underscoreChar_eq_self h]
    exact h

theorem underscoreChar_idem (c : Char) :
    underscoreChar (underscoreChar c) = underscoreChar c :=
  underscoreChar_eq_self (underscoreChar_ne_space c)

theorem underscoreChar_eq_comma {c : Char} (h : underscoreChar c = ',') :
    c = ',' := by
  by_cases hs : c = ' '
  · rw [underscoreChar, if_pos hs] at h
    exact absurd h (by decide)
  · rwa [underscoreChar_eq_self hs] at h

theorem pyWs_underscoreChar {c : Char} (h : pyWs c = false) :
    pyWs (underscoreChar c) = false := by
  by_cases hs : c = ' '
  · subst hs
    exact absurd h (by decide)
  · rwa [underscoreChar_eq_self hs]

theorem dropWhile_of_head_not {α : Type} {p : α → Bool} {l : List α}
    (h : ∀ c, l.head? = some c → p c = false) : l.dropWhile p = l := by
  cases l with
  | nil => rfl
  | cons a as =>
    rw [List.dropWhile_cons, if_neg]
    rw [h a rfl]
    simp

theorem head_dropWhile_not {α : Type} (p : α → Bool) (l : List α) :
    ∀ c, (l.dropWhile p).head? = some c → p c = false := by
  induction l with
  | nil => intro c hc; cases hc
  | cons a as ih =>
    intro c hc
    rw [List.dropWhile_cons] at hc
    by_cases hp : p a = true
    · rw [if_pos hp] at hc
      exact ih c hc
    · rw [if_neg hp] at hc
      cases hc
      simpa using hp

theorem dropWhile_idem {α : Type} (p : α → Bool) (l : List α) :
    (l.dropWhile p).dropWhile p = l.dropWhile p :=
  dropWhile_of_head_not (head_dropWhile_not p l)

theorem getLast_dropWhile_not {α : Type} (p : α → Bool) (l : List α) :
    ∀ c, (l.dropWhile p).getLast? = some c → l.getLast? = some c := by
  intro c hc
  obtain ⟨pre, hpre⟩ := @List.dropWhile_suffix _ l p
  rw [← hpre, List.getLast?_append, hc]
  rfl

theorem pyStrip_head (l : List Char) :
    ∀ c, (pyStrip l).head? = some c → pyWs c = false := by
  intro c hc
  rw [pyStrip, List.head?_reverse] at hc
  have := getLast_dropWhile_not pyWs ((l.dropWhile pyWs).reverse) c hc
  rw [List.getLast?_reverse] at this
  exact head_dropWhile_not pyWs l c this

theorem pyStrip_last (l : List Char) :
    ∀ c, (pyStrip l).getLast? = some c → pyWs c = false := by
  intro c hc
  rw [pyStrip, List.getLast?_reverse] at hc
  exact head_dropWhile_not pyWs _ c hc

theorem pyStrip_eq_self_of_edges {m : List Char}
    (hh : ∀ c, m.head? = some c → pyWs c = false)
    (hl : ∀ c, m.getLast? = some c → pyWs c = false) : pyStrip m = m := by
  rw [pyStrip, dropWhile_of_head_not hh, dropWhile_of_head_not, List.reverse_reverse]
  intro c hc
  rw [List.head?_reverse] at hc
  exact hl c hc

theorem pyStrip_idem (l : List Char) : pyStrip (pyStrip l) = pyStrip l :=
  pyStrip_eq_self_of_edges (pyStrip_head l) (pyStrip_last l)

theorem pyStrip_subset {l : List Char} {c : Char} (h : c ∈ pyStrip l) :
    c ∈ l := by
  rw [pyStrip, List.mem_reverse] at h
  have h2 := (List.dropWhile_sublist pyWs).subset h
  rw [List.mem_reverse] at h2
  exact (List.dropWhile_sublist pyWs).subset h2

theorem normNameL_eq_map (l : List Char) :
    pyReplaceSpaceUnderscore (pyLower l) =
      l.map fun c => underscoreChar (pyLowerChar c) := by
  rw [pyReplaceSpaceUnderscore, pyLower, List.map_map]
  rfl

theorem normChar_idem (c : Char) :
    underscoreChar (pyLowerChar (underscoreChar (pyLowerChar c))) =
      underscoreChar (pyLowerChar c) := by
  by_cases hs : pyLowerChar c = ' '
  · rw [hs]
    decide
  · rw [underscoreChar_eq_self hs, pyLowerChar_idem, underscoreChar_eq_self hs]

theorem pyWs_normChar {c : Char} (h : pyWs c = false) :
    pyWs (underscoreChar (pyLowerChar c)) = false :=
  pyWs_underscoreChar (pyWs_pyLowerChar h)

theorem normName_idem (s : String) : normName (normName s) = normName s := by
  apply String.ext
  show pyReplaceSpaceUnderscore (pyLower (pyStrip (pyReplaceSpaceUnderscore
    (pyLower (pyStrip s.data))))) = pyReplaceSpaceUnderscore (pyLower (pyStrip s.data))
  rw [normNameL_eq_map, normNameL_eq_map]
  have hstrip : pyStrip ((pyStrip s.data).map fun c =>
      underscoreChar (pyLowerChar c)) = (pyStrip s.data).map fun c =>
      underscoreChar (pyLowerChar c) := by
    apply pyStrip_eq_self_of_edges
    · intro c hc
      rw [List.head?_map] at hc
      match hm : (pyStrip s.data).head? with
      | none => rw [hm] at hc; cases hc
      | some c0 =>
        rw [hm] at hc
        cases hc
        exact pyWs_normChar (pyStrip_head s.data c0 hm)
    · intro c hc
      rw [← List.head?_reverse, ← List.map_reverse, List.head?_map,
        List.head?_reverse] at hc
      match hm : (pyStrip s.data).getLast? with
      | none => rw [hm] at hc; cases hc
      | some c0 =>
        rw [hm] at hc
        cases hc
        exact pyWs_normChar (pyStrip_last s.data c0 hm)
  rw [hstrip, List.map_map]
  apply List.map_congr_left
  intro a _
  exact normChar_idem a

theorem normName_ne_comma {l : List Char} (h : ',' ∉ l) :
    ',' ∉ pyReplaceSpaceUnderscore (pyLower (pyStrip l)) := by
  rw [normNameL_eq_map]
  intro hmem
  obtain ⟨c, hc, hceq⟩ := List.exists_of_mem_map hmem
  have hc1 : pyLowerChar c = ',' := underscoreChar_eq_comma hceq
  have hc2 : c = ',' := by
    by_contra hne
    exact pyLowerChar_ne_of_toNat (by decide) hne hc1
  exact h (hc2 ▸ pyStrip_subset hc)

theorem normName_of_canon {s : String} (h : canonName s = true) : normName s = s := by
  rw [canonName, Bool.and_eq_true, decide_eq_true_eq, List.all_eq_true] at h
  obtain ⟨hstrip, hall⟩ := h
  apply String.ext
  show pyReplaceSpaceUnderscore (pyLower (pyStrip s.data)) = s.data
  rw [hstrip, pyReplaceSpaceUnderscore, pyLower, List.map_map]
  have : ∀ c ∈ s.data, underscoreChar (pyLowerChar c) = c := by
    intro c hc
    have hcc := hall c hc
    rw [Bool.and_eq_true] at hcc
    have h1 : ¬(65 ≤ c.toNat ∧ c.toNat ≤ 90) := by
      have := hcc.1
      simp only [Bool.not_eq_true', Bool.and_eq_false_iff] at this
      rcases this with h | h
      · intro hcon; exact absurd (by exact decide_eq_true hcon.1) (by simp [h])
      · intro hcon; exact absurd (by exact decide_eq_true hcon.2) (by simp [h])
    have h2 : c ≠ ' ' := by
      intro hcon
      have := hcc.2
      rw [hcon] at this
      exact absurd this (by decide)
    rw [pyLowerChar_eq_self h1, underscoreChar_eq_self h2]
  calc s.data.map (fun c => underscoreChar (pyLowerChar c))
      = s.data.map id := List.map_congr_left fun a ha => this a ha
    _ = s.data := List.map_id s.data

theorem splitOnChar_ne_nil (sep : Char) (l : List Char) :
    splitOnChar sep l ≠ [] := by
  cases l with
  | nil => simp [splitOnChar]
  | cons c cs =>
    rw [splitOnChar]
    by_cases h : c = sep
    · rw [if_pos h]; simp
    · rw [if_neg h]
      match splitOnChar sep cs with
      | [] => simp
      | f :: rest => simp

theorem splitOnChar_length_two {sep : Char} {l : List Char} (h : sep ∈ l) :
    2 ≤ (splitOnChar sep l).length := by
  induction l with
  | nil => cases h
  | cons c cs ih =>
    rw [splitOnChar]
    by_cases hc : c = sep
    · rw [if_pos hc, List.length_cons]
      have := List.length_pos.mpr (splitOnChar_ne_nil sep cs)
      omega
    · rw [if_neg hc]
      have hmem : sep ∈ cs := by
        cases h with
        | head => exact absurd rfl hc
        | tail _ hm => exact hm
      have h2 := ih hmem
      match hs : splitOnChar sep cs with
      | [] => exact absurd hs (splitOnChar_ne_nil sep cs)
      | f :: rest =>
        rw [hs] at h2
        simpa using h2

theorem fix_of_not_single {df : DataFrame}
    (h : ¬(df.cols.length = 1 ∧ ',' ∈ (df.cols.getD 0 "").data)) :
    fix_single_column_csv_like df = df := by
  rw [fix_single_column_csv_like]
  by_cases h1 : df.cols.length ≠ 1
  · rw [if_pos h1]
  · rw [if_neg h1]
    push_neg at h1
    have h2 : ',' ∉ (df.cols.getD 0 "").data := fun hm => h ⟨h1, hm⟩
    rw [if_pos]
    simpa using h2

theorem eaqi_label_of_le {v : ℚ} (h : v ≤ 40) : eaqi_label (some v) = "Bon" := by
  simp [eaqi_label, GOOD_MAX, h]

theorem eaqi_label_of_mid {v : ℚ} (h1 : 40 < v) (h2 : v ≤ 80) :
    eaqi_label (some v) = "Moyen" := by
  simp [eaqi_label, GOOD_MAX, MEDIUM_MAX, not_le.mpr h1, h2]

theorem eaqi_label_of_gt {v : ℚ} (h : 80 < v) : eaqi_label (some v) = "Mauvais" := by
  have h1 : ¬ v ≤ 40 := not_le.mpr (lt_trans (by norm_num) h)
  simp [eaqi_label, GOOD_MAX, MEDIUM_MAX, not_le.mpr h, h1]

theorem eaqi_color_of_le {v : ℚ} (h : v ≤ 40) : eaqi_color (some v) = COLOR_GOOD := by
  simp [eaqi_color, GOOD_MAX, h]

theorem eaqi_color_of_mid {v : ℚ} (h1 : 40 < v) (h2 : v ≤ 80) :
    eaqi_color (some v) = COLOR_MED := by
  simp [eaqi_color, GOOD_MAX, MEDIUM_MAX, not_le.mpr h1, h2]

theorem eaqi_color_of_gt {v : ℚ} (h : 80 < v) : eaqi_color (some v) = COLOR_BAD := by
  have h1 : ¬ v ≤ 40 := not_le.mpr (lt_trans (by norm_num) h)
  simp [eaqi_color, GOOD_MAX, MEDIUM_MAX, not_le.mpr h, h1]

/-! ### Column access lemmas -/

theorem colIdx_lt_length {cols : List String} {name : String} (h : name ∈ cols) :
    colIdx cols name < cols.length := by
  rw [colIdx]
  exact List.findIdx_lt_length.mpr ⟨name, h, by simp⟩

theorem colIdx_get {cols : List String} {name : String}
    (h : colIdx cols name < cols.length) :
    cols.get ⟨colIdx cols name, h⟩ = name := by
  have hp := @List.findIdx_get _ _ _ h
  simpa using hp

theorem colIdx_ne {cols : List String} {n1 n2 : String} (h1 : n1 ∈ cols)
    (hne : n1 ≠ n2) : colIdx cols n1 ≠ colIdx cols n2 := by
  intro he
  have hlt1 := colIdx_lt_length h1
  have hlt2 : colIdx cols n2 < cols.length := he ▸ hlt1
  have ha := colIdx_get hlt1
  have hb := colIdx_get hlt2
  apply hne
  rw [← ha, ← hb]
  congr 1
  exact Fin.ext he

theorem colIdx_append_left {cols more : List String} {name : String}
    (h : name ∈ cols) : colIdx (cols ++ more) name = colIdx cols name := by
  induction cols with
  | nil => cases h
  | cons c cs ih =>
    rw [List.cons_append, colIdx, colIdx, List.findIdx_cons, List.findIdx_cons]
    by_cases hc : c = name
    · simp [hc]
    · have hd : (decide (c = name)) = false := by simp [hc]
      rw [hd]
      simp only [cond_false]
      have hmem : name ∈ cs := by
        cases h with
        | head => exact absurd rfl hc
        | tail _ hm => exact hm
      rw [show List.findIdx (fun c => decide (c = name)) (cs ++ more) =
        colIdx (cs ++ more) name from rfl, ih hmem]
      rfl

theorem colIdx_append_self {cols : List String} {name : String}
    (h : name ∉ cols) : colIdx (cols ++ [name]) name = cols.length := by
  induction cols with
  | nil =>
    rw [List.nil_append, colIdx, List.findIdx_cons]
    simp
  | cons c cs ih =>
    rw [List.cons_append, colIdx, List.findIdx_cons]
    have hc : c ≠ name := fun he => h (he ▸ List.mem_cons_self c cs)
    have hd : (decide (c = name)) = false := by simp [hc]
    rw [hd]
    simp only [cond_false, List.length_cons]
    have hmem : name ∉ cs := fun hm => h (List.mem_cons_of_mem c hm)
    rw [show List.findIdx (fun x => decide (x = name)) (cs ++ [name]) =
      colIdx (cs ++ [name]) name from rfl, ih hmem]

theorem getD_set_self {l : List Cell} {i : Nat} {v d : Cell}
    (h : i < l.length) : (l.set i v).getD i d = v := by
  rw [List.getD_eq_getElem?_getD, List.getElem?_set_self h]
  rfl

theorem getD_set_ne {l : List Cell} {i j : Nat} {v d : Cell} (h : i ≠ j) :
    (l.set i v).getD j d = l.getD j d := by
  rw [List.getD_eq_getElem?_getD, List.getElem?_set_ne h,
    ← List.getD_eq_getElem?_getD]

theorem getAt_zipWith {f : String → Cell → Cell} {cols : List String}
    {r : List Cell} {name : String} (hmem : name ∈ cols)
    (hlen : r.length = cols.length) :
    getAt cols name (List.zipWith f cols r) = f name (getAt cols name r) := by
  induction cols generalizing r with
  | nil => cases hmem
  | cons c cs ih =>
    match r with
    | [] => simp at hlen
    | x :: xs =>
      rw [List.zipWith_cons_cons]
      by_cases hc : c = name
      · subst hc
        rw [getAt, getAt, colIdx, List.findIdx_cons]
        simp
      · rw [getAt, getAt, colIdx, List.findIdx_cons]
        have hd : (decide (c = name)) = false := by simp [hc]
        rw [hd]
        simp only [cond_false, List.getD_cons_succ]
        have hmem2 : name ∈ cs := by
          cases hmem with
          | head => exact absurd rfl hc
          | tail _ hm => exact hm
        have hlen2 : xs.length = cs.length := by simpa using hlen
        exact ih hmem2 hlen2

theorem coerceRow_length {cols : List String} {r : List Cell}
    (h : r.length = cols.length) : (coerceRow cols r).length = cols.length := by
  rw [coerceRow, List.length_zipWith, h]
  exact min_self _

theorem getAt_append_row {cols more : List String} {r v : List Cell}
    {name : String} (hmem : name ∈ cols) (hlen : r.length = cols.length) :
    getAt (cols ++ more) name (r ++ v) = getAt cols name r := by
  rw [getAt, getAt, colIdx_append_left hmem, List.getD_append]
  rw [hlen]
  exact colIdx_lt_length hmem

theorem getAt_append_self {cols : List String} {r : List Cell} {v : Cell}
    {name : String} (hmem : name ∉ cols) (hlen : r.length = cols.length) :
    getAt (cols ++ [name]) name (r ++ [v]) = v := by
  rw [getAt, colIdx_append_self hmem, List.getD_append_right _ _ _ _ (by omega)]
  rw [hlen, Nat.sub_self]
  rfl

theorem coerceField_date (c : Cell) : coerceField "date" c = toDatetimeDate c := by
  rw [coerceField, if_pos rfl]

theorem coerceField_lat (c : Cell) : coerceField "latitude" c = toNumeric c := by
  rw [coerceField, if_neg (by decide), if_pos (Or.inl rfl)]

theorem coerceField_lon (c : Cell) : coerceField "longitude" c = toNumeric c := by
  rw [coerceField, if_neg (by decide), if_pos (Or.inr (Or.inl rfl))]

theorem coerceField_aqi (c : Cell) :
    coerceField "european_aqi" c = toNumeric c := by
  rw [coerceField, if_neg (by decide), if_pos (Or.inr (Or.inr rfl))]

theorem coerceField_city (c : Cell) : coerceField "city" c = c := by
  rw [coerceField, if_neg (by decide), if_neg (by decide)]

theorem coerceField_country (c : Cell) : coerceField "country" c = c := by
  rw [coerceField, if_neg (by decide), if_neg (by decide)]

theorem requiredCols_ne_cn {name : String} (h : name ∈ requiredCols) :
    name ≠ "country_name" := by
  simp only [requiredCols, List.mem_cons, List.not_mem_nil, or_false] at h
  rcases h with rfl | rfl | rfl | rfl | rfl | rfl <;> decide

theorem getAt_prepRow_required {cols : List String} {r : List Cell}
    (name : String) (hreq : name ∈ requiredCols) (hmem : name ∈ cols)
    (hlen : r.length = cols.length) :
    getAt (pcCols cols) name (prepRow cols r) =
      coerceField name (getAt cols name r) := by
  have hne : name ≠ "country_name" := requiredCols_ne_cn hreq
  by_cases h : cols.contains "country_name"
  · have hcn : "country_name" ∈ cols := by simpa using h
    rw [pcCols, if_pos h, prepRow]
    simp only [if_pos h]
    rw [getAt, getD_set_ne (colIdx_ne hcn (Ne.symm hne))]
    rw [show (coerceRow cols r).getD (colIdx cols name) Cell.absent =
      getAt cols name (coerceRow cols r) from rfl]
    rw [coerceRow]
    exact getAt_zipWith hmem hlen
  · rw [pcCols, if_neg h, prepRow]
    simp only [if_neg h]
    rw [getAt_append_row hmem (coerceRow_length hlen), coerceRow]
    exact getAt_zipWith hmem hlen

theorem getAt_prepRow_cn {cols : List String} {r : List Cell}
    (hlen : r.length = cols.length) :
    getAt (pcCols cols) "country_name" (prepRow cols r) =
      countryNameCell cols (coerceRow cols r) := by
  by_cases h : cols.contains "country_name"
  · have hcn : "country_name" ∈ cols := by simpa using h
    rw [pcCols, if_pos h, prepRow]
    simp only [if_pos h]
    have hi : colIdx cols "country_name" < (coerceRow cols r).length := by
      rw [coerceRow_length hlen]
      exact colIdx_lt_length hcn
    rw [getAt, getD_set_self hi]
  · rw [pcCols, if_neg h, prepRow]
    simp only [if_neg h]
    exact getAt_append_self (by simpa using h) (coerceRow_length hlen)

theorem prepareCoerced_cols (df : DataFrame) :
    (prepareCoerced df).cols = pcCols df.cols := by
  rw [prepareCoerced, addCountryName, pcCols]
  by_cases h : df.cols.contains "country_name" = true
  · rw [if_pos h, if_pos h]
  · rw [if_neg h, if_neg h]

theorem prepareCoerced_rows (df : DataFrame) :
    (prepareCoerced df).rows = df.rows.map (prepRow df.cols) := by
  rw [prepareCoerced, addCountryName]
  by_cases h : df.cols.contains "country_name" = true
  · rw [if_pos h]
    show (df.rows.map (coerceRow df.cols)).map _ = _
    rw [List.map_map]
    apply List.map_congr_left
    intro a _
    show (coerceRow df.cols a).set _ _ = prepRow df.cols a
    rw [prepRow, if_pos h]
  · rw [if_neg h]
    show (df.rows.map (coerceRow df.cols)).map _ = _
    rw [List.map_map]
    apply List.map_congr_left
    intro a _
    show coerceRow df.cols a ++ _ = prepRow df.cols a
    rw [prepRow, if_neg h]

theorem prepare_eq_ok {df : DataFrame} (hm : missingCols df = []) :
    prepare df = Except.ok
      ⟨pcCols df.cols,
        (df.rows.map (prepRow df.cols)).filter (dropnaKeep (pcCols df.cols))⟩ := by
  rw [prepare, if_pos hm]
  congr 1
  rw [dropIncomplete]
  have hc := prepareCoerced_cols df
  have hr := prepareCoerced_rows df
  cases hpc : prepareCoerced df with
  | mk c2 r2 =>
    rw [hpc] at hc hr
    simp only at hc hr
    rw [hc, hr]

theorem dropnaKeep_prepRow {cols : List String} {r : List Cell}
    (hall : ∀ c ∈ requiredCols, c ∈ cols) (hlen : r.length = cols.length) :
    dropnaKeep (pcCols cols) (prepRow cols r) = rowParses cols r := by
  have hd := getAt_prepRow_required "date" (by decide)
    (hall _ (by decide)) hlen
  have hla := getAt_prepRow_required "latitude" (by decide)
    (hall _ (by decide)) hlen
  have hlo := getAt_prepRow_required "longitude" (by decide)
    (hall _ (by decide)) hlen
  have haq := getAt_prepRow_required "european_aqi" (by decide)
    (hall _ (by decide)) hlen
  have hci := getAt_prepRow_required "city" (by decide)
    (hall _ (by decide)) hlen
  have hco := getAt_prepRow_required "country" (by decide)
    (hall _ (by decide)) hlen
  rw [dropnaKeep, rowParses]
  simp only [List.all_cons, List.all_nil, Bool.and_true]
  rw [hd, hla, hlo, haq, hci, hco, coerceField_date, coerceField_lat,
    coerceField_lon, coerceField_aqi, coerceField_city, coerceField_country]
  simp [Bool.and_assoc]

theorem ratAdd_eq (a b : ℚ) : ratAdd a b = a + b := by
  have ha : ((a.den : ℚ)) ≠ 0 := Nat.cast_ne_zero.mpr (Rat.den_nz a)
  have hb : ((b.den : ℚ)) ≠ 0 := Nat.cast_ne_zero.mpr (Rat.den_nz b)
  rw [ratAdd, Rat.mkRat_eq_div]
  conv_rhs => rw [← Rat.num_div_den a, ← Rat.num_div_den b,
    div_add_div _ _ ha hb]
  push_cast
  ring_nf

theorem ratSum_eq : ∀ l : List ℚ, ratSum l = l.sum
  | [] => rfl
  | q :: qs => by rw [ratSum, ratAdd_eq, ratSum_eq qs, List.sum_cons]

theorem ratMean_eq (l : List ℚ) : ratMean l = l.sum / (l.length : ℚ) := by
  rw [ratMean, Rat.mkRat_eq_div]
  push_cast
  rw [← div_div, Rat.num_div_den, ratSum_eq]

theorem exists_num_of_isSome {c : Cell} (h : (cellNum c).isSome = true) :
    ∃ q, c = Cell.num q := by
  cases c with
  | num q => exact ⟨q, rfl⟩
  | absent => simp [cellNum] at h
  | str s => simp [cellNum] at h
  | date d => simp [cellNum] at h

theorem eq_map_num_of_all_some {vals : List Cell}
    (h : ∀ x ∈ vals, (cellNum x).isSome = true) :
    vals = (vals.filterMap cellNum).map Cell.num := by
  induction vals with
  | nil => rfl
  | cons x xs ih =>
    obtain ⟨q, rfl⟩ := exists_num_of_isSome (h x (List.mem_cons_self x xs))
    rw [List.filterMap_cons]
    show Cell.num q :: xs = _
    simp only [cellNum, List.map_cons]
    congr 1
    exact ih fun x hx => h x (List.mem_cons_of_mem _ hx)

theorem city_means_of_clean {df : DataFrame} (hclean : isCleanTable df = true) :
    city_means_for_day df =
      { cols := groupKeyCols ++ ["european_aqi", "label", "color"],
        rows := ((df.rows.map (keyOf df.cols)).dedup).map
          (groupRow df.cols df.rows) } := by
  have hfil : df.rows.filter (fun r => keyOk (keyOf df.cols r)) = df.rows := by
    apply List.filter_eq_self.mpr
    intro r hr
    rw [isCleanTable, List.all_eq_true] at hclean
    have h2 := hclean r hr
    simp only [Bool.and_eq_true] at h2
    exact h2.1
  rw [city_means_for_day, hfil]

theorem keyOf_length (cols : List String) (r : List Cell) :
    (keyOf cols r).length = 5 := rfl

theorem take5_groupRow {cols : List String} {rows : List (List Cell)}
    {k : List Cell} (hk : k.length = 5) :
    (groupRow cols rows k).take 5 = k := by
  rw [groupRow]
  show (k ++ _).take 5 = k
  rw [← hk]
  exact List.take_left _ _

theorem mem_keys_row {df : DataFrame} {k : List Cell}
    (hk : k ∈ (df.rows.map (keyOf df.cols)).dedup) :
    ∃ r ∈ df.rows, keyOf df.cols r = k := by
  rw [List.mem_dedup] at hk
  exact List.mem_map.mp hk

theorem keys_length {df : DataFrame} {k : List Cell}
    (hk : k ∈ (df.rows.map (keyOf df.cols)).dedup) : k.length = 5 := by
  obtain ⟨r, _, he⟩ := mem_keys_row hk
  rw [← he]
  exact keyOf_length _ _

theorem groupRow_eval {df : DataFrame} (hclean : isCleanTable df = true)
    {k : List Cell} (hk : k ∈ (df.rows.map (keyOf df.cols)).dedup) :
    ∃ qs : List ℚ, qs ≠ []
      ∧ (df.rows.filter fun r => decide (keyOf df.cols r = k)).map
          (fun r => getAt df.cols "european_aqi" r) = qs.map Cell.num
      ∧ groupRow df.cols df.rows k =
          k ++ [Cell.num (qs.sum / (qs.length : ℚ)),
            Cell.str (eaqi_label (some (qs.sum / (qs.length : ℚ)))),
            Cell.str (eaqi_color (some (qs.sum / (qs.length : ℚ))))] := by
  set vals := (df.rows.filter fun r => decide (keyOf df.cols r = k)).map
    (fun r => getAt df.cols "european_aqi" r) with hv
  have hsome : ∀ x ∈ vals, (cellNum x).isSome = true := by
    intro x hx
    obtain ⟨r, hr, rfl⟩ := List.mem_map.mp hx
    have hr2 : r ∈ df.rows := List.mem_of_mem_filter hr
    rw [isCleanTable, List.all_eq_true] at hclean
    have h2 := hclean r hr2
    simp only [Bool.and_eq_true] at h2
    exact h2.2
  have hdecomp := eq_map_num_of_all_some hsome
  set qs := vals.filterMap cellNum with hq
  have hnonempty : qs ≠ [] := by
    obtain ⟨r, hr, hkr⟩ := mem_keys_row hk
    have hrf : r ∈ df.rows.filter fun r => decide (keyOf df.cols r = k) :=
      List.mem_filter.mpr ⟨hr, decide_eq_true hkr⟩
    have hmem : getAt df.cols "european_aqi" r ∈ vals :=
      List.mem_map_of_mem _ hrf
    intro hqnil
    rw [hdecomp, hqnil] at hmem
    exact absurd hmem (by simp)
  refine ⟨qs, hnonempty, hdecomp, ?_⟩
  rw [groupRow]
  show k ++ [meanCell vals, Cell.str (eaqi_label (cellNum (meanCell vals))),
    Cell.str (eaqi_color (cellNum (meanCell vals)))] = _
  have hmean : meanCell vals = Cell.num (qs.sum / (qs.length : ℚ)) := by
    rw [meanCell]
    show (if qs.isEmpty then Cell.absent else Cell.num (ratMean qs)) = _
    rw [if_neg, ratMean_eq]
    intro hemp
    exact hnonempty (List.isEmpty_iff.mp hemp)
  rw [hmean]
  rfl

theorem city_means_nodup {df : DataFrame} (hclean : isCleanTable df = true) :
    ((city_means_for_day df).rows.map (List.take 5)).Nodup := by
  rw [city_means_of_clean hclean]
  show ((((df.rows.map (keyOf df.cols)).dedup).map
    (groupRow df.cols df.rows)).map (List.take 5)).Nodup
  rw [List.map_map]
  have hcong : ∀ k ∈ (df.rows.map (keyOf df.cols)).dedup,
      (List.take 5 ∘ groupRow df.cols df.rows) k = id k := by
    intro k hk
    exact take5_groupRow (keys_length hk)
  rw [List.map_congr_left hcong, List.map_id]
  exact List.nodup_dedup _

theorem city_means_key_rows {df : DataFrame} (hclean : isCleanTable df = true)
    {k : List Cell} (hk : k ∈ (df.rows.map (keyOf df.cols)).dedup) :
    (city_means_for_day df).rows.filter (fun r => decide (r.take 5 = k)) =
      [groupRow df.cols df.rows k] := by
  rw [city_means_of_clean hclean]
  show (((df.rows.map (keyOf df.cols)).dedup).map
    (groupRow df.cols df.rows)).filter _ = _
  rw [List.filter_map]
  have hcong : ∀ k2 ∈ (df.rows.map (keyOf df.cols)).dedup,
      ((fun r => decide (r.take 5 = k)) ∘ groupRow df.cols df.rows) k2 =
        decide (k2 = k) := by
    intro k2 hk2
    show decide ((groupRow df.cols df.rows k2).take 5 = k) = decide (k2 = k)
    rw [take5_groupRow (keys_length hk2)]
  rw [List.filter_congr hcong, List.filter_eq,
    List.count_eq_one_of_mem (List.nodup_dedup _) hk]
  rfl

theorem cellIsNA_false_iff {c : Cell} : cellIsNA c = false ↔ c ≠ Cell.absent := by
  cases c <;> simp [cellIsNA]

theorem toNumeric_cases (c : Cell) :
    toNumeric c = Cell.absent ∨ ∃ q, toNumeric c = Cell.num q := by
  cases c with
  | num q => exact Or.inr ⟨q, rfl⟩
  | absent => exact Or.inl rfl
  | date d => exact Or.inl rfl
  | str s =>
    rw [toNumeric]
    cases parsePyFloat s with
    | none => exact Or.inl rfl
    | some q => exact Or.inr ⟨q, rfl⟩

theorem hall_of_missing_nil {df : DataFrame} (hm : missingCols df = []) :
    ∀ c ∈ requiredCols, c ∈ df.cols := by
  intro c hc
  by_contra hnc
  have hmem : c ∈ missingCols df :=
    List.mem_filter.mpr ⟨hc, decide_eq_true hnc⟩
  rw [hm] at hmem
  exact absurd hmem (List.not_mem_nil c)

theorem isCleanTable_prepare {df out : DataFrame} (hrect : isRect df)
    (hok : prepare df = Except.ok out) : isCleanTable out = true := by
  by_cases hm : missingCols df = []
  · have hall := hall_of_missing_nil hm
    rw [prepare_eq_ok hm] at hok
    rw [← Except.ok.inj hok]
    rw [isCleanTable, List.all_eq_true]
    intro r hr
    show (keyOk (keyOf (pcCols df.cols) r)
      && (cellNum (getAt (pcCols df.cols) "european_aqi" r)).isSome) = true
    obtain ⟨hrm, hkeep⟩ := List.mem_filter.mp hr
    obtain ⟨r0, hr0, rfl⟩ := List.mem_map.mp hrm
    have hlen := hrect r0 hr0
    rw [dropnaKeep, List.all_eq_true] at hkeep
    have hcity := hkeep "city" (by decide)
    have hcountry := hkeep "country" (by decide)
    have hlat := hkeep "latitude" (by decide)
    have hlon := hkeep "longitude" (by decide)
    have haqi := hkeep "european_aqi" (by decide)
    have hcn := getAt_prepRow_cn hlen
    have haqi2 : ∃ q, getAt (pcCols df.cols) "european_aqi"
        (prepRow df.cols r0) = Cell.num q := by
      rw [getAt_prepRow_required "european_aqi" (by decide)
        (hall _ (by decide)) hlen, coerceField_aqi]
      rcases toNumeric_cases (getAt df.cols "european_aqi" r0) with h | h
      · exfalso
        rw [getAt_prepRow_required "european_aqi" (by decide)
          (hall _ (by decide)) hlen, coerceField_aqi, h] at haqi
        exact absurd haqi (by decide)
      · exact h
    rw [Bool.and_eq_true]
    constructor
    · rw [keyOk, keyOf, groupKeyCols]
      simp only [List.map_cons, List.map_nil, List.all_cons, List.all_nil,
        Bool.and_true]
      rw [hcn]
      simp only [Bool.not_eq_true', Bool.and_eq_true]
      refine ⟨?_, ?_, ?_, ?_, ?_⟩
      · simpa using hcity
      · simpa using hcountry
      · rw [countryNameCell]
        rfl
      · simpa using hlat
      · simpa using hlon
    · obtain ⟨q, hq⟩ := haqi2
      rw [hq]
      rfl
  · rw [prepare, if_neg hm] at hok
    exact absurd hok (by simp)

theorem isCleanTable_filter {df : DataFrame} (p : List Cell → Bool)
    (h : isCleanTable df = true) :
    isCleanTable ⟨df.cols, df.rows.filter p⟩ = true := by
  rw [isCleanTable, List.all_eq_true] at h ⊢
  intro r hr
  exact h r (List.mem_of_mem_filter hr)

theorem city_means_row_shape {df : DataFrame} (hclean : isCleanTable df = true)
    {r : List Cell} (hr : r ∈ (city_means_for_day df).rows) :
    ∃ k μ, k.length = 5
      ∧ r = k ++ [Cell.num μ, Cell.str (eaqi_label (some μ)),
          Cell.str (eaqi_color (some μ))] := by
  rw [city_means_of_clean hclean] at hr
  obtain ⟨k, hk, rfl⟩ := List.mem_map.mp hr
  obtain ⟨qs, _, _, hrow⟩ := groupRow_eval hclean hk
  exact ⟨k, _, keys_length hk, hrow⟩

theorem eaqi_label_mem (μ : ℚ) :
    eaqi_label (some μ) = "Bon" ∨ eaqi_label (some μ) = "Moyen"
      ∨ eaqi_label (some μ) = "Mauvais" := by
  rcases le_or_lt μ 40 with h | h
  · exact Or.inl (eaqi_label_of_le h)
  · rcases le_or_lt μ 80 with h2 | h2
    · exact Or.inr (Or.inl (eaqi_label_of_mid h h2))
    · exact Or.inr (Or.inr (eaqi_label_of_gt h2))

theorem eaqi_color_mem (μ : ℚ) :
    eaqi_color (some μ) = COLOR_GOOD ∨ eaqi_color (some μ) = COLOR_MED
      ∨ eaqi_color (some μ) = COLOR_BAD := by
  rcases le_or_lt μ 40 with h | h
  · exact Or.inl (eaqi_color_of_le h)
  · rcases le_or_lt μ 80 with h2 | h2
    · exact Or.inr (Or.inl (eaqi_color_of_mid h h2))
    · exact Or.inr (Or.inr (eaqi_color_of_gt h2))

theorem getAt_agg_aqi {k : List Cell} (hk : k.length = 5) (a b c : Cell) :
    getAt (groupKeyCols ++ ["european_aqi", "label", "color"]) "european_aqi"
      (k ++ [a, b, c]) = a := by
  rw [getAt]
  rw [show colIdx (groupKeyCols ++ ["european_aqi", "label", "color"])
    "european_aqi" = 5 from rfl]
  rw [List.getD_append_right _ _ _ _ (by omega), hk]
  rfl

theorem getAt_agg_label {k : List Cell} (hk : k.length = 5) (a b c : Cell) :
    getAt (groupKeyCols ++ ["european_aqi", "label", "color"]) "label"
      (k ++ [a, b, c]) = b := by
  rw [getAt]
  rw [show colIdx (groupKeyCols ++ ["european_aqi", "label", "color"])
    "label" = 6 from rfl]
  rw [List.getD_append_right _ _ _ _ (by omega), hk]
  rfl

theorem getAt_agg_color {k : List Cell} (hk : k.length = 5) (a b c : Cell) :
    getAt (groupKeyCols ++ ["european_aqi", "label", "color"]) "color"
      (k ++ [a, b, c]) = c := by
  rw [getAt]
  rw [show colIdx (groupKeyCols ++ ["european_aqi", "label", "color"])
    "color" = 7 from rfl]
  rw [List.getD_append_right _ _ _ _ (by omega), hk]
  rfl

/-! ### Claim theorems -/

/-- C1: the tier-label classification is total and follows the fixed
thresholds: an absent value yields the Unknown tier (`"Inconnu"`), `v ≤ 40`
yields the Good tier (`"Bon"`, including exactly 40, zero and negative
values), `40 < v ≤ 80` yields the Medium tier (`"Moyen"`, including exactly
80), and `v > 80` yields the Bad tier (`"Mauvais"`). -/
theorem C1_tier_label_thresholds :
    eaqi_label none = "Inconnu"
    ∧ (∀ v : ℚ, v ≤ 40 → eaqi_label (some v) = "Bon")
    ∧ (∀ v : ℚ, 40 < v → v ≤ 80 → eaqi_label (some v) = "Moyen")
    ∧ (∀ v : ℚ, 80 < v → eaqi_label (some v) = "Mauvais")
    ∧ eaqi_label (some 40) = "Bon"
    ∧ eaqi_label (some 0) = "Bon"
    ∧ eaqi_label (some (-10)) = "Bon"
    ∧ eaqi_label (some 80) = "Moyen" := by
  refine ⟨rfl, fun v h => eaqi_label_of_le h,
    fun v h1 h2 => eaqi_label_of_mid h1 h2,
    fun v h => eaqi_label_of_gt h,
    eaqi_label_of_le (by norm_num), eaqi_label_of_le (by norm_num),
    eaqi_label_of_le (by norm_num), eaqi_label_of_mid (by norm_num) (by norm_num)⟩

/-- Witness for C1 at concrete inputs 35, 41 and 100. -/
theorem C1_tier_label_thresholds_witness :
    eaqi_label (some 35) = "Bon"
    ∧ eaqi_label (some 41) = "Moyen"
    ∧ eaqi_label (some 100) = "Mauvais" :=
  ⟨C1_tier_label_thresholds.2.1 35 (by norm_num),
   C1_tier_label_thresholds.2.2.1 41 (by norm_num) (by norm_num),
   C1_tier_label_thresholds.2.2.2.1 100 (by norm_num)⟩

/-- C2: the label and the colour function classify every possibly absent
value into the same cell of one four-way partition — each label corresponds
to exactly one fixed colour constant — and for `v1 ≤ 40 < v2 ≤ 80 < v3` the
three labels differ pairwise and so do their colours. -/
theorem C2_label_color_one_partition :
    (∀ v : Option ℚ,
      (eaqi_label v = "Inconnu" ↔ eaqi_color v = COLOR_UNKNOWN)
      ∧ (eaqi_label v = "Bon" ↔ eaqi_color v = COLOR_GOOD)
      ∧ (eaqi_label v = "Moyen" ↔ eaqi_color v = COLOR_MED)
      ∧ (eaqi_label v = "Mauvais" ↔ eaqi_color v = COLOR_BAD))
    ∧ (∀ v1 v2 v3 : ℚ, v1 ≤ 40 → 40 < v2 → v2 ≤ 80 → 80 < v3 →
      eaqi_label (some v1) ≠ eaqi_label (some v2)
      ∧ eaqi_label (some v2) ≠ eaqi_label (some v3)
      ∧ eaqi_label (some v1) ≠ eaqi_label (some v3)
      ∧ eaqi_color (some v1) ≠ eaqi_color (some v2)
      ∧ eaqi_color (some v2) ≠ eaqi_color (some v3)
      ∧ eaqi_color (some v1) ≠ eaqi_color (some v3)) := by
  constructor
  · intro v
    match v with
    | none => exact ⟨by decide, by decide, by decide, by decide⟩
    | some q =>
      rcases le_or_lt q 40 with h | h
      · rw [eaqi_label_of_le h, eaqi_color_of_le h]
        exact ⟨by decide, by decide, by decide, by decide⟩
      · rcases le_or_lt q 80 with h2 | h2
        · rw [eaqi_label_of_mid h h2, eaqi_color_of_mid h h2]
          exact ⟨by decide, by decide, by decide, by decide⟩
        · rw [eaqi_label_of_gt h2, eaqi_color_of_gt h2]
          exact ⟨by decide, by decide, by decide, by decide⟩
  · intro v1 v2 v3 h1 h2 h3 h4
    rw [eaqi_label_of_le h1, eaqi_label_of_mid h2 h3, eaqi_label_of_gt h4,
      eaqi_color_of_le h1, eaqi_color_of_mid h2 h3, eaqi_color_of_gt h4]
    exact ⟨by decide, by decide, by decide, by decide, by decide, by decide⟩

/-- Witness for C2 at the concrete triple 10, 50, 100. -/
theorem C2_label_color_one_partition_witness :
    (eaqi_label (some 10) = "Bon" ↔ eaqi_color (some 10) = COLOR_GOOD)
    ∧ eaqi_label (some 10) ≠ eaqi_label (some 50)
    ∧ eaqi_color (some 50) ≠ eaqi_color (some 100) :=
  ⟨(C2_label_color_one_partition.1 (some 10)).2.1,
   (C2_label_color_one_partition.2 10 50 100 (by norm_num) (by norm_num)
     (by norm_num) (by norm_num)).1,
   (C2_label_color_one_partition.2 10 50 100 (by norm_num) (by norm_num)
     (by norm_num) (by norm_num)).2.2.2.2.1⟩

/-- C3: `prepare` fails with a schema error exactly when one of the six
required columns is absent; the error carries the sorted missing names and
the names actually present; a frame lacking only `latitude` reports
exactly `["latitude"]`. -/
theorem C3_prepare_schema_error (df : DataFrame) :
    ((∃ e, prepare df = Except.error e) ↔ ∃ c ∈ requiredCols, c ∉ df.cols)
    ∧ (∀ e, prepare df = Except.error e →
        e.missing.Sorted (· ≤ ·)
        ∧ (∀ c, c ∈ e.missing ↔ c ∈ requiredCols ∧ c ∉ df.cols)
        ∧ e.present = df.cols)
    ∧ (("latitude" ∉ df.cols ∧ ∀ c ∈ requiredCols, c ≠ "latitude" → c ∈ df.cols) →
        ∃ e, prepare df = Except.error e ∧ e.missing = ["latitude"]) := by
  have hiff : missingCols df ≠ [] ↔ ∃ c ∈ requiredCols, c ∉ df.cols := by
    constructor
    · intro h
      obtain ⟨c, hc⟩ := List.exists_mem_of_ne_nil _ h
      rw [missingCols, List.mem_filter] at hc
      exact ⟨c, hc.1, of_decide_eq_true hc.2⟩
    · rintro ⟨c, hc, hnc⟩ h
      have hmem : c ∈ missingCols df :=
        List.mem_filter.mpr ⟨hc, decide_eq_true hnc⟩
      rw [h] at hmem
      exact absurd hmem (List.not_mem_nil c)
  by_cases hm : missingCols df = []
  · refine ⟨?_, ?_, ?_⟩
    · simp only [prepare, if_pos hm]
      constructor
      · rintro ⟨e, he⟩
        exact absurd he (by simp)
      · intro hex
        exact absurd hex (by simpa [hm] using hiff.symm.not.mpr (by simp [hm]))
    · intro e he
      rw [prepare, if_pos hm] at he
      exact absurd he (by simp)
    · rintro ⟨hlat, hall⟩
      exfalso
      have : missingCols df ≠ [] := hiff.mpr ⟨"latitude", by simp [requiredCols], hlat⟩
      exact this hm
  · have hpe : prepare df =
        Except.error ⟨List.insertionSort (· ≤ ·) (missingCols df), df.cols⟩ := by
      rw [prepare, if_neg hm]
    refine ⟨?_, ?_, ?_⟩
    · exact ⟨fun _ => hiff.mp hm, fun _ => ⟨_, hpe⟩⟩
    · intro e he
      rw [hpe] at he
      have hee := Except.error.inj he
      subst hee
      refine ⟨List.sorted_insertionSort _ _, ?_, rfl⟩
      intro c
      rw [(List.perm_insertionSort (· ≤ ·) (missingCols df)).mem_iff,
        missingCols, List.mem_filter]
      simp
    · rintro ⟨hlat, hall⟩
      have hcity : "city" ∈ df.cols := hall _ (by simp [requiredCols]) (by decide)
      have hcountry : "country" ∈ df.cols := hall _ (by simp [requiredCols]) (by decide)
      have hdate : "date" ∈ df.cols := hall _ (by simp [requiredCols]) (by decide)
      have hlon : "longitude" ∈ df.cols := hall _ (by simp [requiredCols]) (by decide)
      have haqi : "european_aqi" ∈ df.cols := hall _ (by simp [requiredCols]) (by decide)
      have hmiss : missingCols df = ["latitude"] := by
        simp [missingCols, requiredCols, hcity, hcountry, hdate, hlon, haqi, hlat]
      refine ⟨_, hpe, ?_⟩
      rw [hmiss]
      rfl

/-- Witness for C3 at a concrete frame lacking only `latitude`. -/
theorem C3_prepare_schema_error_witness :
    ∃ e, prepare missingLatDf = Except.error e ∧ e.missing = ["latitude"] :=
  (C3_prepare_schema_error missingLatDf).2.2 ⟨by decide, by decide⟩

/-- C4: when all six required columns are present, `prepare` keeps exactly
the rows whose date, latitude, longitude and european_aqi parse and whose
city and country are present (each kept row coerced and extended with the
derived `country_name`); on the concrete sample the `N/A`-latitude row is
dropped while the fully parseable rows — including the one with the
unresolvable country code `zz` — are kept. -/
theorem C4_prepare_keeps_parseable :
    (∀ df out, isRect df → prepare df = Except.ok out →
      out.rows = (df.rows.filter (rowParses df.cols)).map (prepRow df.cols))
    ∧ prepare sampleSixDf = Except.ok prepOutDf := by
  constructor
  · intro df out hrect hok
    by_cases hm : missingCols df = []
    · have hall : ∀ c ∈ requiredCols, c ∈ df.cols := by
        intro c hc
        by_contra hnc
        have hmem : c ∈ missingCols df :=
          List.mem_filter.mpr ⟨hc, decide_eq_true hnc⟩
        rw [hm] at hmem
        exact absurd hmem (List.not_mem_nil c)
      rw [prepare_eq_ok hm] at hok
      rw [← Except.ok.inj hok]
      show (df.rows.map (prepRow df.cols)).filter (dropnaKeep (pcCols df.cols)) = _
      rw [List.filter_map]
      congr 1
      apply List.filter_congr
      intro r hr
      show dropnaKeep (pcCols df.cols) (prepRow df.cols r) = rowParses df.cols r
      exact dropnaKeep_prepRow hall (hrect r hr)
    · rw [prepare, if_neg hm] at hok
      exact absurd hok (by simp)
  · decide

/-- Witness for C4 at the concrete sample frame. -/
theorem C4_prepare_keeps_parseable_witness :
    prepOutDf.rows =
      (sampleSixDf.rows.filter (rowParses sampleSixDf.cols)).map
        (prepRow sampleSixDf.cols) :=
  C4_prepare_keeps_parseable.1 sampleSixDf prepOutDf (by decide) (by decide)

/-- C5: a single-column frame whose column name contains a comma is rebuilt
by re-parsing the document made of that name followed by the string forms
of the cells; the concrete Paris row round-trips into the six typed
fields. -/
theorem C5_single_column_fallback :
    (∀ df : DataFrame, ∀ h : String, df.cols = [h] →
      h.data.contains ',' = true →
      fix_single_column_csv_like df =
        parseCSV h.data
          (df.rows.map fun r => (cellToStr (r.getD 0 Cell.absent)).data))
    ∧ normalizeTable parisDf =
      { cols := ["city", "country", "date", "latitude", "longitude",
          "european_aqi"],
        rows := [[Cell.str "Paris", Cell.str "FR", Cell.str "2024-01-01",
          Cell.num (mkRat 4885 100), Cell.num (mkRat 235 100),
          Cell.num 42]] } := by
  constructor
  · intro df h hcols hc
    have hmem : ',' ∈ h.data := by simpa using hc
    rw [fix_single_column_csv_like, hcols]
    simp [hmem]
  · decide

/-- Witness for C5: the fallback applied at the concrete Paris frame. -/
theorem C5_single_column_fallback_witness :
    fix_single_column_csv_like parisDf =
      parseCSV ("city,country,date,latitude,longitude,european_aqi").data
        (parisDf.rows.map fun r => (cellToStr (r.getD 0 Cell.absent)).data) :=
  C5_single_column_fallback.1 parisDf _ rfl (by decide)

/-- C8 as claimed is false: `normalize_columns` returns its (mutated)
argument with the canonicalised column names, so the received frame does
not stay unchanged, and a successful `prepare` leaves the coerced columns
and the added `country_name` visible in the caller's frame. -/
theorem C8_no_mutation_counterexample :
    ¬ (normalize_columns_post rawCityDf = rawCityDf
      ∧ prepare_post sampleSixDf = sampleSixDf) := by
  intro h
  exact absurd h.1 (by decide)

/-- C8 amended: the stages do mutate the frame they receive.  After
`normalize_columns` the caller's frame equals the returned renamed frame;
after a `prepare` that passes the schema check the caller's frame carries
the coerced columns and the derived `country_name` (and the returned clean
frame is the row-filtered copy of that state); a `prepare` that raises the
schema error leaves the caller's frame unchanged. -/
theorem C8_mutation_amended (df : DataFrame) :
    normalize_columns_post df = normalize_columns df
    ∧ (missingCols df = [] → prepare_post df = prepareCoerced df)
    ∧ (missingCols df ≠ [] → prepare_post df = df)
    ∧ (∀ out, prepare df = Except.ok out → out = dropIncomplete (prepare_post df))
    ∧ normalize_columns_post rawCityDf ≠ rawCityDf
    ∧ prepare_post sampleSixDf ≠ sampleSixDf := by
  refine ⟨rfl, fun h => by rw [prepare_post, if_pos h],
    fun h => by rw [prepare_post, if_neg h], ?_, by decide, by decide⟩
  intro out hout
  by_cases h : missingCols df = []
  · rw [prepare, if_pos h] at hout
    rw [prepare_post, if_pos h, ← Except.ok.inj hout]
  · rw [prepare, if_neg h] at hout
    exact absurd hout (by simp)

/-- Witness for C8 (amended) at the concrete well-formed frame. -/
theorem C8_mutation_amended_witness :
    prepare_post sampleSixDf = prepareCoerced sampleSixDf :=
  (C8_mutation_amended sampleSixDf).2.1 (by decide)

/-- C9 as claimed is false: a frame with canonical column names (trimmed,
lower-case, no spaces) is not always returned unchanged, because a single
column whose canonical name contains a comma triggers the CSV fallback and
is split. -/
theorem C9_idempotence_counterexample :
    canonCols commaColDf = true ∧ normalizeTable commaColDf ≠ commaColDf := by
  constructor
  · decide
  · decide

/-- C9 amended: normalisation returns a canonically named table unchanged
unless the frame consists of exactly one column whose name contains a
comma (then the CSV fallback rebuilds it), and normalisation is idempotent
on every frame: applying it twice equals applying it once. -/
theorem C9_normalizer_idempotent (df : DataFrame) :
    (canonCols df = true →
      ¬(df.cols.length = 1 ∧ ',' ∈ (df.cols.getD 0 "").data) →
      normalizeTable df = df)
    ∧ normalizeTable (normalizeTable df) = normalizeTable df := by
  constructor
  · intro hcanon hnot
    rw [normalizeTable, fix_of_not_single hnot, normalize_columns]
    have hmap : df.cols.map normName = df.cols := by
      rw [canonCols, List.all_eq_true] at hcanon
      calc df.cols.map normName = df.cols.map id :=
            List.map_congr_left fun a ha => normName_of_canon (hcanon a ha)
        _ = df.cols := List.map_id _
    rw [hmap]
  · have hfix : fix_single_column_csv_like (normalizeTable df) = normalizeTable df := by
      apply fix_of_not_single
      rintro ⟨hlen, hcomma⟩
      by_cases h1 : df.cols.length = 1 ∧ ',' ∈ (df.cols.getD 0 "").data
      · obtain ⟨hl1, hc1⟩ := h1
        have hfixdf : fix_single_column_csv_like df =
            parseCSV (df.cols.getD 0 "").data
              (df.rows.map fun r => (cellToStr (r.getD 0 Cell.absent)).data) := by
          rw [fix_single_column_csv_like, if_neg (not_not_intro hl1), if_neg]
          exact not_not_intro (by simpa using hc1)
        have h2 : 2 ≤ (normalizeTable df).cols.length := by
          rw [normalizeTable, normalize_columns, hfixdf]
          show 2 ≤ (((splitOnChar ',' (df.cols.getD 0 "").data).map
            (fun h => (⟨h⟩ : String))).map normName).length
          rw [List.length_map, List.length_map]
          exact splitOnChar_length_two hc1
        omega
      · have hfixdf := fix_of_not_single h1
        rw [normalizeTable, hfixdf, normalize_columns] at hlen hcomma
        simp only [List.length_map] at hlen
        have hnc : ',' ∉ (df.cols.getD 0 "").data := fun hm => h1 ⟨hlen, hm⟩
        obtain ⟨h0, hh0⟩ := List.length_eq_one.mp hlen
        rw [hh0] at hnc hcomma
        simp only [List.map_cons, List.map_nil, List.getD_cons_zero] at hcomma
        exact normName_ne_comma (by simpa using hnc) (by simpa using hcomma)
    rw [normalizeTable, hfix, normalizeTable, normalize_columns, normalize_columns]
    simp only [List.map_map]
    congr 1
    exact List.map_congr_left fun a _ => normName_idem a

/-- Witness for C9 (amended) at the concrete canonical six-column frame. -/
theorem C9_normalizer_idempotent_witness :
    normalizeTable sampleSixDf = sampleSixDf :=
  (C9_normalizer_idempotent sampleSixDf).1 (by decide) (by decide)

/-- C6: on a clean input table the aggregator produces exactly one output
row per distinct five-part key (no duplicate keys), whose `european_aqi`
is the arithmetic mean of the group's values and whose label and colour
are the classification functions applied to that mean; the concrete Lyon
frame (AQI 30 and 50) aggregates to one row with mean 40 and the Good
label. -/
theorem C6_aggregator_mean_per_key :
    (∀ df : DataFrame, isCleanTable df = true →
      ((city_means_for_day df).rows.map (List.take 5)).Nodup
      ∧ ∀ k ∈ (df.rows.map (keyOf df.cols)).dedup,
          ∃ qs : List ℚ, qs ≠ []
            ∧ (df.rows.filter fun r => decide (keyOf df.cols r = k)).map
                (fun r => getAt df.cols "european_aqi" r) = qs.map Cell.num
            ∧ (city_means_for_day df).rows.filter
                (fun r => decide (r.take 5 = k)) =
              [k ++ [Cell.num (qs.sum / (qs.length : ℚ)),
                Cell.str (eaqi_label (some (qs.sum / (qs.length : ℚ)))),
                Cell.str (eaqi_color (some (qs.sum / (qs.length : ℚ))))]])
    ∧ city_means_for_day lyonDf = lyonOutDf := by
  constructor
  · intro df hclean
    refine ⟨city_means_nodup hclean, ?_⟩
    intro k hk
    obtain ⟨qs, hne, hdec, hrow⟩ := groupRow_eval hclean hk
    refine ⟨qs, hne, hdec, ?_⟩
    rw [city_means_key_rows hclean hk, hrow]
  · decide

/-- Witness for C6 at the concrete Lyon frame. -/
theorem C6_aggregator_mean_per_key_witness :
    ((city_means_for_day lyonDf).rows.map (List.take 5)).Nodup :=
  (C6_aggregator_mean_per_key.1 lyonDf (by decide)).1

/-- C7: `country_name` is a pure total function of the country code that
trims and uppercases string inputs and looks them up in the fixed ISO2
table: `"fr"` resolves to `"France"`, unrecognised codes such as `"zz"`
pass through uppercased, and every non-string input yields the fixed
sentinel `"Inconnu"`. -/
theorem C7_country_name_resolution :
    country_name (Cell.str "fr") = "France"
    ∧ country_name (Cell.str "zz") = "ZZ"
    ∧ country_name Cell.absent = "Inconnu"
    ∧ (∀ c : Cell, (∀ s : String, c ≠ Cell.str s) → country_name c = "Inconnu")
    ∧ (∀ s : String, country_name (Cell.str s) =
        (ISO2_TO_COUNTRY_FR.lookup (pyStripUpper s)).getD (pyStripUpper s))
    ∧ country_name (Cell.str " Fr ") = "France" := by
  refine ⟨by decide, by decide, rfl, ?_, ?_, by decide⟩
  · intro c h
    match c with
    | Cell.absent => rfl
    | Cell.num q => rfl
    | Cell.date d => rfl
    | Cell.str s => exact absurd rfl (h s)
  · intro s
    cases h : ISO2_TO_COUNTRY_FR.lookup (pyStripUpper s) <;>
      simp [country_name, h]

/-- Witness for C7 at the concrete non-string input `Cell.num 3`. -/
theorem C7_country_name_resolution_witness :
    country_name (Cell.num 3) = "Inconnu" :=
  C7_country_name_resolution.2.2.2.1 (Cell.num 3) fun _ h => Cell.noConfusion h

/-- C10: for every table returned by `prepare` and every row filter applied
to it (the day and country selections), the aggregated output never
reaches the Unknown branch of the classification: every point's mean is
present, its label is one of the three value tiers and never `"Inconnu"`,
and its colour is one of the three tier colours and never the neutral
one. -/
theorem C10_aggregated_never_unknown :
    ∀ (df out : DataFrame) (p : List Cell → Bool), isRect df →
      prepare df = Except.ok out →
      ∀ r ∈ (city_means_for_day ⟨out.cols, out.rows.filter p⟩).rows,
        getAt (groupKeyCols ++ ["european_aqi", "label", "color"])
            "european_aqi" r ≠ Cell.absent
        ∧ (getAt (groupKeyCols ++ ["european_aqi", "label", "color"])
            "label" r = Cell.str "Bon"
          ∨ getAt (groupKeyCols ++ ["european_aqi", "label", "color"])
            "label" r = Cell.str "Moyen"
          ∨ getAt (groupKeyCols ++ ["european_aqi", "label", "color"])
            "label" r = Cell.str "Mauvais")
        ∧ (getAt (groupKeyCols ++ ["european_aqi", "label", "color"])
            "color" r = Cell.str COLOR_GOOD
          ∨ getAt (groupKeyCols ++ ["european_aqi", "label", "color"])
            "color" r = Cell.str COLOR_MED
          ∨ getAt (groupKeyCols ++ ["european_aqi", "label", "color"])
            "color" r = Cell.str COLOR_BAD)
        ∧ getAt (groupKeyCols ++ ["european_aqi", "label", "color"])
            "label" r ≠ Cell.str "Inconnu"
        ∧ getAt (groupKeyCols ++ ["european_aqi", "label", "color"])
            "color" r ≠ Cell.str COLOR_UNKNOWN := by
  intro df out p hrect hok r hr
  have hclean : isCleanTable out = true := isCleanTable_prepare hrect hok
  have hcleanf : isCleanTable ⟨out.cols, out.rows.filter p⟩ = true :=
    isCleanTable_filter p hclean
  obtain ⟨k, μ, hk5, rfl⟩ := city_means_row_shape hcleanf hr
  rw [getAt_agg_aqi hk5, getAt_agg_label hk5, getAt_agg_color hk5]
  refine ⟨by simp, ?_, ?_, ?_, ?_⟩
  · rcases eaqi_label_mem μ with h | h | h <;> rw [h]
    · exact Or.inl rfl
    · exact Or.inr (Or.inl rfl)
    · exact Or.inr (Or.inr rfl)
  · rcases eaqi_color_mem μ with h | h | h <;> rw [h]
    · exact Or.inl rfl
    · exact Or.inr (Or.inl rfl)
    · exact Or.inr (Or.inr rfl)
  · rcases eaqi_label_mem μ with h | h | h <;> rw [h] <;> decide
  · rcases eaqi_color_mem μ with h | h | h <;> rw [h] <;> decide

/-- Witness for C10 at the concrete prepared sample and the trivial
filter, checked on the aggregated Paris row. -/
theorem C10_aggregated_never_unknown_witness :
    getAt (groupKeyCols ++ ["european_aqi", "label", "color"]) "label"
        [Cell.str "Paris", Cell.str "FR", Cell.str "France", Cell.num 1,
          Cell.num 2, Cell.num 42, Cell.str "Moyen", Cell.str "#FFA500"]
      ≠ Cell.str "Inconnu" :=
  (C10_aggregated_never_unknown sampleSixDf prepOutDf (fun _ => true)
    (by decide) (by decide) _ (by decide)).2.2.2.1

end AirQuality
